import Mathlib

/-!
Shallow embedding of `robotDemo.py`: a two-sided PID light tracker
(`follow_light`) and a Morse-code temporal decoder
(`read_morse_with_pauses`, `translate_morse_code`, `get_word_string`,
`trim_morse_list`), together with theorems checking the natural-language
specification against this embedding.

Sensor readings and light thresholds are integers; the PID arithmetic is
carried out exactly in `ℚ` and converted to an integer power level by
truncation toward zero, mirroring Python's `int(...)` applied to a float.
-/

/-- Python's `int(...)` applied to a (real-valued) number: truncation toward
zero.  On a rational `q` in lowest terms this is T-division of the numerator
by the denominator. -/
def pyInt (q : ℚ) : Int := q.num.tdiv q.den

/-! ## Dual-channel PID tracker (`follow_light`, lines 75-132) -/

/-- The mutable per-loop PID variables of `follow_light` that persist from one
tick to the next: `left_error_sum`, `right_error_sum`, `left_prev_error`,
`right_prev_error` (lines 82-85, updated at lines 106-110 and 120-121). -/
structure FollowState where
  left_error_sum : Int
  right_error_sum : Int
  left_prev_error : Int
  right_prev_error : Int
deriving DecidableEq

/-- All values computed by one iteration of the `while` loop body of
`follow_light` (lines 94-129): the per-side errors after the arrival
override, the updated error sums, the differential terms after the
cross-channel override, and the two power levels. -/
structure TickResult where
  left_error : Int
  right_error : Int
  left_error_sum : Int
  right_error_sum : Int
  left_error_diff : Int
  right_error_diff : Int
  left_power : Int
  right_power : Int
deriving DecidableEq

/-- Proportional gain `gain_p = 0.3` (line 86). -/
def gain_p : ℚ := 0.3

/-- Integral gain `gain_i = 0.0001` (line 87). -/
def gain_i : ℚ := 0.0001

/-- Derivative gain `gain_d = 0.4` (line 88). -/
def gain_d : ℚ := 0.4

/-- One iteration of the `follow_light` loop body (lines 94-126), given the
threshold `max_light`, the carried state and the two ambient-light readings
of this tick. -/
def followTick (max_light : Int) (st : FollowState) (left_light right_light : Int) :
    TickResult :=
  let left_error := max_light - left_light
  let right_error := max_light - right_light
  let arrival :=
    if left_error = 0 ∨ right_error = 0 then
      ((0 : Int), (0 : Int), (0 : Int), (0 : Int))
    else
      (left_error, right_error,
        st.left_error_sum + left_error, st.right_error_sum + right_error)
  let left_error := arrival.1
  let right_error := arrival.2.1
  let left_error_sum := arrival.2.2.1
  let right_error_sum := arrival.2.2.2
  let left_error_diff := left_error - st.left_prev_error
  let right_error_diff := right_error - st.right_prev_error
  let diffs :=
    if left_error_diff = 0 ∨ right_error_diff = 0 then ((0 : Int), (0 : Int))
    else (left_error_diff, right_error_diff)
  let left_error_diff := diffs.1
  let right_error_diff := diffs.2
  let left_power :=
    pyInt (gain_p * left_error + gain_i * left_error_sum + gain_d * left_error_diff)
  let right_power :=
    pyInt (gain_p * right_error + gain_i * right_error_sum + gain_d * right_error_diff)
  { left_error := left_error, right_error := right_error,
    left_error_sum := left_error_sum, right_error_sum := right_error_sum,
    left_error_diff := left_error_diff, right_error_diff := right_error_diff,
    left_power := left_power, right_power := right_power }

/-- The state carried into the next tick (lines 106-110, 120-121):
`prev_error` is always set to the current (possibly overridden) error. -/
def nextState (r : TickResult) : FollowState :=
  { left_error_sum := r.left_error_sum, right_error_sum := r.right_error_sum,
    left_prev_error := r.left_error, right_prev_error := r.right_error }

/-- A command sent to one motor: `start` with a signed speed (lines 128-129)
or `stop` (lines 131-132). -/
inductive MotorCmd where
  | start : Int → MotorCmd
  | stop : MotorCmd
deriving DecidableEq

/-- The pair of motor commands emitted by one tick:
`left_motor.start(speed=-left_power)` and
`right_motor.start(speed=right_power)` (lines 128-129). -/
def tickCommands (r : TickResult) : MotorCmd × MotorCmd :=
  (MotorCmd.start (-r.left_power), MotorCmd.start r.right_power)

/-- The `while timer.now() <= duration` loop of `follow_light` (lines 93-132),
run over a list of ticks, each a timer reading paired with the two sensor
readings taken on that iteration.  Returns the trace of commands sent to the
left motor and to the right motor.  The loop exits at the first tick whose
timer reading exceeds `duration`, then each motor is stopped (lines 131-132). -/
def follow_light (duration : Int) (max_light : Int)
    (ticks : List (Int × Int × Int)) (st : FollowState) :
    List MotorCmd × List MotorCmd :=
  match ticks with
  | [] => ([MotorCmd.stop], [MotorCmd.stop])
  | (t, left_light, right_light) :: rest =>
    if t ≤ duration then
      let r := followTick max_light st left_light right_light
      let tr := follow_light duration max_light rest (nextState r)
      ((tickCommands r).1 :: tr.1, (tickCommands r).2 :: tr.2)
    else ([MotorCmd.stop], [MotorCmd.stop])

/-! ## Morse dictionary (lines 24-51) -/

/-- The `morse_code` dictionary: each uppercase letter paired with its
dot/dash pattern, a dot being `1`, a dash `3`, and `0` the intra-character
space, in the source's insertion order. -/
def morse_code : List (String × List Nat) :=
  [("A", [1, 0, 3]),
   ("B", [3, 0, 1, 0, 1, 0, 1]),
   ("C", [3, 0, 1, 0, 3, 0, 1]),
   ("D", [3, 0, 1, 0, 1]),
   ("E", [1]),
   ("F", [1, 0, 1, 0, 3, 0, 1]),
   ("G", [3, 0, 3, 0, 1]),
   ("H", [1, 0, 1, 0, 1, 0, 1]),
   ("I", [1, 0, 1]),
   ("J", [1, 0, 3, 0, 3, 0, 3]),
   ("K", [3, 0, 1, 0, 3]),
   ("L", [1, 0, 3, 0, 1, 0, 1]),
   ("M", [3, 0, 3]),
   ("N", [3, 0, 1]),
   ("O", [3, 0, 3, 0, 3]),
   ("P", [1, 0, 3, 0, 3, 0, 1]),
   ("Q", [3, 0, 3, 0, 1, 0, 3]),
   ("R", [1, 0, 3, 0, 1]),
   ("S", [1, 0, 1, 0, 1]),
   ("T", [3]),
   ("U", [1, 0, 1, 0, 3]),
   ("V", [1, 0, 1, 0, 1, 0, 3]),
   ("W", [1, 0, 3, 0, 3]),
   ("X", [3, 0, 1, 0, 1, 0, 3]),
   ("Y", [3, 0, 1, 0, 3, 0, 3]),
   ("Z", [3, 0, 3, 0, 1, 0, 1])]

/-! ## Run-length encoder (`read_morse_with_pauses`, lines 161-181) and
`trim_morse_list` (lines 240-256) -/

/-- The run-length collapsing loop of `read_morse_with_pauses`
(lines 161-177), over samples already classified on/off: an on-sample
increments the running `morse_length`; an off-sample appends the counter
(even when it is `0`) and, when the counter was positive, also appends an
explicit `0` gap marker and resets the counter; a final positive counter is
flushed after the loop. -/
def collect_morse_lengths : List Bool → Nat → List Nat → List Nat
  | [], morse_length, morse_lengths =>
    if 0 < morse_length then morse_lengths ++ [morse_length] else morse_lengths
  | lit :: rest, morse_length, morse_lengths =>
    if lit then collect_morse_lengths rest (morse_length + 1) morse_lengths
    else if 0 < morse_length then
      collect_morse_lengths rest 0 (morse_lengths ++ [morse_length, 0])
    else collect_morse_lengths rest 0 (morse_lengths ++ [morse_length])

/-- Helper for `trim_morse_list`: walks the reversed list, discarding
entries until one `> 0` is found, and returns the kept part re-reversed.
This mirrors the `while not found and morse_list` pop loop of lines 244-254. -/
def trim_rev : List Nat → List Nat
  | [] => []
  | x :: rest => if 0 < x then (x :: rest).reverse else trim_rev rest

/-- `trim_morse_list` (lines 240-256): removes trailing `0` entries from the
end of the run-length list. -/
def trim_morse_list (morse_list : List Nat) : List Nat :=
  trim_rev morse_list.reverse

/-- The on/off classification applied to each raw reading (line 167): the
light counts as on when the reading is strictly closer to `max_light` than
to `min_light`. -/
def is_light_on (reading min_light max_light : Int) : Bool :=
  decide (|reading - max_light| < |reading - min_light|)

/-- The pure part of `read_morse_with_pauses` (lines 161-181): run-length
collapse the classified samples, then trim trailing zeros. -/
def read_morse_encoded (samples : List Bool) : List Nat :=
  trim_morse_list (collect_morse_lengths samples 0 [])

/-! ## Letter segmenter and translator (`translate_morse_code`,
lines 184-222, and `get_word_string`, lines 225-237) -/

/-- The letter-separation loop of `translate_morse_code` (lines 197-221),
processing the remaining run entries with the current `break_time`, the
in-progress `curr_letter` buffer and the `letters` accumulated so far.
`next_length` is the following entry, or `0` at the end of the list; a
positive entry followed by a zero pushes both onto the buffer and resets
`break_time`; a zero entry increments `break_time`; when `break_time`
reaches `3` or the last index is processed, a non-empty buffer loses its
trailing `0` and is emitted as one letter. -/
def separate_letters : List Nat → Nat → List Nat → List (List Nat) → List (List Nat)
  | [], _, _, letters => letters
  | curr_length :: rest, break_time, curr_letter, letters =>
    let next_length := rest.headD 0
    let step :=
      if curr_length ≠ 0 ∧ next_length = 0 then
        (curr_letter ++ [curr_length, next_length], 0)
      else if curr_length = 0 then (curr_letter, break_time + 1)
      else (curr_letter, break_time)
    if step.2 = 3 ∨ rest = [] then
      if step.1 ≠ [] then
        separate_letters rest step.2 [] (letters ++ [step.1.dropLast])
      else separate_letters rest step.2 step.1 letters
    else separate_letters rest step.2 step.1 letters

/-- `get_word_string` (lines 225-237): for each letter pattern, scan the
dictionary in order and append the key of every entry whose value equals the
pattern. -/
def get_word_string (letters : List (List Nat)) : String :=
  letters.foldl
    (fun word letter =>
      morse_code.foldl (fun w kv => if letter = kv.2 then w ++ kv.1 else w) word)
    ""

/-- `translate_morse_code` (lines 184-222): segment the run-length list into
letters, then translate them. -/
def translate_morse_code (morse_lengths : List Nat) : String :=
  get_word_string (separate_letters morse_lengths 0 [] [])

/-! ## Basic facts about `pyInt` and string folds -/

/-- `pyInt` is truncation toward zero: floor on nonnegative arguments and
ceiling on negative ones. -/
theorem pyInt_eq_trunc (q : ℚ) : pyInt q = if 0 ≤ q then ⌊q⌋ else ⌈q⌉ := by
  unfold pyInt
  by_cases h : 0 ≤ q
  · rw [if_pos h, Rat.floor_def]
    exact Int.tdiv_eq_ediv (Rat.num_nonneg.mpr h) (Int.ofNat_nonneg _)
  · rw [if_neg h]
    have hq : 0 ≤ -q := by linarith [not_le.mp h]
    have h1 : q.num.tdiv q.den = -((-q).num.tdiv (-q).den) := by
      rw [Rat.neg_num, Rat.neg_den, Int.neg_tdiv, neg_neg]
    rw [h1, Int.tdiv_eq_ediv (Rat.num_nonneg.mpr hq) (Int.ofNat_nonneg _),
      ← Rat.floor_def, ← Int.ceil_neg, neg_neg]

/-- Folding string concatenation starting from `w` prepends `w` to the fold
started from the empty string. -/
theorem foldl_str_append (ss : List String) (w : String) :
    ss.foldl (· ++ ·) w = w ++ ss.foldl (· ++ ·) "" := by
  induction ss generalizing w with
  | nil => simp
  | cons s ss ih =>
    simp only [List.foldl_cons]
    rw [ih (w ++ s), ih ("" ++ s), String.empty_append, String.append_assoc]

/-- `String.join` on a cons. -/
theorem str_join_cons (s : String) (ss : List String) :
    String.join (s :: ss) = s ++ String.join ss := by
  show List.foldl (· ++ ·) ("" ++ s) ss = _
  rw [String.empty_append, foldl_str_append]
  rfl

/-- The inner dictionary scan of `get_word_string`, started from an arbitrary
accumulated word, appends its matches to that word. -/
theorem dict_foldl_acc (d : List (String × List Nat)) (letter : List Nat) (w : String) :
    d.foldl (fun w kv => if letter = kv.2 then w ++ kv.1 else w) w
      = w ++ d.foldl (fun w kv => if letter = kv.2 then w ++ kv.1 else w) "" := by
  induction d generalizing w with
  | nil => simp
  | cons kv d ih =>
    simp only [List.foldl_cons]
    by_cases h : letter = kv.2
    · simp only [if_pos h]
      rw [ih (w ++ kv.1), ih ("" ++ kv.1), String.empty_append, String.append_assoc]
    · simp only [if_neg h]
      exact ih w

/-- The inner dictionary scan equals the concatenation of the keys of the
entries whose value is the looked-up pattern. -/
theorem dict_foldl_eq_join (d : List (String × List Nat)) (letter : List Nat) :
    d.foldl (fun w kv => if letter = kv.2 then w ++ kv.1 else w) ""
      = String.join ((d.filter fun kv => letter = kv.2).map Prod.fst) := by
  induction d with
  | nil => rfl
  | cons kv d ih =>
    simp only [List.foldl_cons]
    by_cases h : letter = kv.2
    · rw [if_pos h, dict_foldl_acc, String.empty_append, ih,
        List.filter_cons_of_pos (by simpa using h), List.map_cons, str_join_cons]
    · rw [if_neg h, ih, List.filter_cons_of_neg (by simpa using h)]

/-- If no dictionary entry matches, the inner scan leaves the word unchanged. -/
theorem dict_foldl_no_match (d : List (String × List Nat)) (letter : List Nat)
    (h : ∀ kv ∈ d, letter ≠ kv.2) (w : String) :
    d.foldl (fun w kv => if letter = kv.2 then w ++ kv.1 else w) w = w := by
  induction d generalizing w with
  | nil => rfl
  | cons kv d ih =>
    simp only [List.foldl_cons, if_neg (h kv (List.mem_cons_self kv d))]
    exact ih (fun q hq => h q (List.mem_cons_of_mem kv hq)) w

/-- With pairwise-distinct dictionary values, the entries matching a value
present in the dictionary are exactly the one entry carrying it. -/
theorem dict_filter_unique (d : List (String × List Nat)) (letter : List Nat)
    (kv : String × List Nat) (hnd : (d.map Prod.snd).Nodup)
    (hmem : kv ∈ d) (hval : letter = kv.2) :
    (d.filter fun p => letter = p.2) = [kv] := by
  induction d with
  | nil => cases hmem
  | cons p d ih =>
    rw [List.map_cons, List.nodup_cons] at hnd
    rcases List.mem_cons.mp hmem with rfl | hmem2
    · rw [List.filter_cons_of_pos (by simpa using hval)]
      congr 1
      refine List.filter_eq_nil_iff.mpr fun q hq => ?_
      simp only [decide_eq_true_eq]
      intro hl
      have hq2 : q.2 = kv.2 := hl.symm.trans hval
      exact hnd.1 (hq2 ▸ List.mem_map_of_mem Prod.snd hq)
    · have hne : ¬letter = p.2 := fun he =>
        hnd.1 ((hval.symm.trans he) ▸ List.mem_map_of_mem Prod.snd hmem2)
      rw [List.filter_cons_of_neg (by simpa using hne)]
      exact ih hnd.2 hmem2

/-- `get_word_string`, started on an already accumulated word, appends its
translation to that word. -/
theorem get_word_string_acc (letters : List (List Nat)) (w : String) :
    letters.foldl
      (fun word letter =>
        morse_code.foldl (fun w kv => if letter = kv.2 then w ++ kv.1 else w) word)
      w = w ++ get_word_string letters := by
  induction letters generalizing w with
  | nil => simp [get_word_string]
  | cons letter letters ih =>
    simp only [get_word_string, List.foldl_cons]
    rw [ih, dict_foldl_acc, ih
      (List.foldl (fun w kv => if letter = kv.2 then w ++ kv.1 else w) "" morse_code),
      String.append_assoc]

/-- Translating a single pattern yields the concatenation of all matching
dictionary keys. -/
theorem get_word_string_single (letter : List Nat) :
    get_word_string [letter]
      = String.join ((morse_code.filter fun kv => letter = kv.2).map Prod.fst) := by
  show morse_code.foldl (fun w kv => if letter = kv.2 then w ++ kv.1 else w) "" = _
  exact dict_foldl_eq_join morse_code letter

/-- The 26 dictionary patterns are pairwise distinct. -/
theorem morse_code_values_nodup : (morse_code.map Prod.snd).Nodup := by decide

/-- Every dictionary key is a single character. -/
theorem morse_code_keys_len : ∀ kv ∈ morse_code, kv.1.length = 1 := by decide

/-- `String.join` of a single string. -/
theorem str_join_single (s : String) : String.join [s] = s := by
  rw [str_join_cons]
  exact String.append_empty s

/-- The last entry of a `trim_rev` result is positive (reading `1` for the
empty list). -/
theorem trim_rev_getLastD_pos (l : List Nat) : 0 < (trim_rev l).getLastD 1 := by
  induction l with
  | nil => simp [trim_rev]
  | cons x rest ih =>
    by_cases hx : 0 < x
    · simp only [trim_rev, if_pos hx, List.reverse_cons, List.getLastD_concat]
      exact hx
    · simpa [trim_rev, hx] using ih

/-- The sample sequence of the "SOS" scenario: three single on-samples
separated by single off-samples, a three-sample off gap, three triple
on-runs separated by single off-samples, a three-sample off gap, and three
single on-samples separated by single off-samples. -/
def sos_samples : List Bool :=
  [true, false, true, false, true,
   false, false, false,
   true, true, true, false, true, true, true, false, true, true, true,
   false, false, false,
   true, false, true, false, true]

/-- C3: the sample sequence representing "SOS" timing run-length encodes to
`[1,0,1,0,1,0,0,0,3,0,3,0,3,0,0,0,1,0,1,0,1]`, and segmenting plus
dictionary translation of that run yields exactly the text `"SOS"`. -/
theorem sos_decodes :
    read_morse_encoded sos_samples
        = [1, 0, 1, 0, 1, 0, 0, 0, 3, 0, 3, 0, 3, 0, 0, 0, 1, 0, 1, 0, 1] ∧
    translate_morse_code (read_morse_encoded sos_samples) = "SOS" := by
  constructor <;> rfl

/-- C5: the run-length list returned by the encoder (run-length collapsing
followed by `trim_morse_list`) has no trailing zero entries: whenever the
result is non-empty, its last entry is positive (`getLastD 1` reads `1` on
the empty list, so the statement covers exactly the non-empty case). -/
theorem read_morse_encoded_no_trailing_zero :
    (∀ morse_list : List Nat, 0 < (trim_morse_list morse_list).getLastD 1) ∧
    (∀ samples : List Bool, 0 < (read_morse_encoded samples).getLastD 1) := by
  constructor
  · intro morse_list
    exact trim_rev_getLastD_pos morse_list.reverse
  · intro samples
    exact trim_rev_getLastD_pos (collect_morse_lengths samples 0 []).reverse

/-- C6: the run `[3,0,0,0,1]` is segmented into exactly the two letter
patterns `[3]` and `[1]`, and translating `[[3],[1]]` via the dictionary
yields exactly `"TE"`. -/
theorem run_30001_translates_te :
    separate_letters [3, 0, 0, 0, 1] 0 [] [] = [[3], [1]] ∧
    get_word_string [[3], [1]] = "TE" := by
  constructor <;> rfl

/-- C8: translation appends, for each pattern, exactly the keys of the
dictionary entries whose value equals that pattern — so a pattern equal to
some dictionary value contributes exactly that entry's (single-character)
key, a pattern with no exact match contributes nothing (no placeholder, and
the function is total so no error is possible) — and in particular
translating `[[3,0,3,0,3,0,3,0,3]]` yields the empty string. -/
theorem get_word_string_skips_unknown :
    (∀ letters : List (List Nat),
        get_word_string letters = String.join (letters.map fun letter =>
          String.join ((morse_code.filter fun kv => letter = kv.2).map Prod.fst))) ∧
    (∀ (letter : List Nat) (kv : String × List Nat),
        kv ∈ morse_code → letter = kv.2 → get_word_string [letter] = kv.1) ∧
    (∀ letter : List Nat, (∀ kv ∈ morse_code, ¬letter = kv.2) →
        get_word_string [letter] = "") ∧
    get_word_string [[3, 0, 3, 0, 3, 0, 3, 0, 3]] = "" := by
  refine ⟨?_, ?_, ?_, by decide⟩
  · intro letters
    induction letters with
    | nil => rfl
    | cons letter letters ih =>
      show List.foldl _ (morse_code.foldl _ "") letters = _
      rw [get_word_string_acc, List.map_cons, str_join_cons, ← ih,
        dict_foldl_eq_join]
  · intro letter kv hmem hval
    rw [get_word_string_single,
      dict_filter_unique morse_code letter kv morse_code_values_nodup hmem hval,
      List.map_cons, List.map_nil, str_join_single]
  · intro letter h
    exact dict_foldl_no_match morse_code letter h ""

/-- Witness for C8: the pattern `[1,0,3]` matches the dictionary entry for
`"A"` and translates to exactly that key, while the unknown pattern `[2]`
translates to the empty string. -/
theorem get_word_string_skips_unknown_witness :
    get_word_string [[1, 0, 3]] = "A" ∧ get_word_string [[2]] = "" :=
  ⟨get_word_string_skips_unknown.2.1 [1, 0, 3] ("A", [1, 0, 3]) (by decide) rfl,
   get_word_string_skips_unknown.2.2.1 [2] (by decide)⟩

/-- C10: `get_word_string` is an order-preserving concatenation homomorphism;
on a single pattern it returns the concatenation of the keys of all
dictionary entries whose value equals the pattern, the 26 dictionary
patterns are pairwise distinct, and hence a single pattern yields at most
one character. -/
theorem get_word_string_concat_hom :
    (∀ xs ys : List (List Nat),
        get_word_string (xs ++ ys) = get_word_string xs ++ get_word_string ys) ∧
    (∀ letter : List Nat,
        get_word_string [letter]
          = String.join ((morse_code.filter fun kv => letter = kv.2).map Prod.fst)) ∧
    (morse_code.map Prod.snd).Nodup ∧
    (∀ letter : List Nat, (get_word_string [letter]).length ≤ 1) := by
  refine ⟨?_, get_word_string_single, morse_code_values_nodup, ?_⟩
  · intro xs ys
    show (xs ++ ys).foldl _ "" = _
    rw [List.foldl_append]
    exact get_word_string_acc ys _
  · intro letter
    rw [get_word_string_single]
    by_cases h : ∃ kv ∈ morse_code, letter = kv.2
    · obtain ⟨kv, hkv, hval⟩ := h
      rw [dict_filter_unique morse_code letter kv morse_code_values_nodup hkv hval,
        List.map_cons, List.map_nil, str_join_single]
      exact le_of_eq (morse_code_keys_len kv hkv)
    · push_neg at h
      rw [List.filter_eq_nil_iff.mpr (by simpa using h)]
      simp [String.join]

/-! ## Shape of the letters produced by the segmenter -/

/-- The letter-pattern shape stated by the specification: a non-empty
sequence beginning and ending with a positive entry, in which consecutive
positive entries are separated by exactly one `0`. -/
def alternating_letter : List Nat → Bool
  | [] => false
  | [p] => decide (0 < p)
  | p :: z :: rest => decide (0 < p) && decide (z = 0) && alternating_letter rest

/-- Invariant of the in-progress `curr_letter` buffer of `separate_letters`:
a (possibly empty) sequence of pairs, each a positive entry followed by a
`0` separator. -/
def pair_buffer : List Nat → Bool
  | [] => true
  | [_] => false
  | p :: z :: rest => decide (0 < p) && decide (z = 0) && pair_buffer rest

/-- Appending one positive entry and its `0` separator preserves the buffer
invariant. -/
theorem pair_buffer_append (b : List Nat) (c : Nat) (hb : pair_buffer b = true)
    (hc : 0 < c) : pair_buffer (b ++ [c, 0]) = true := by
  induction b using pair_buffer.induct with
  | case1 => simp [pair_buffer, hc]
  | case2 x => simp [pair_buffer] at hb
  | case3 p z rest ih =>
    simp only [pair_buffer, Bool.and_eq_true, decide_eq_true_eq] at hb
    simp only [List.cons_append, pair_buffer, Bool.and_eq_true, decide_eq_true_eq]
    exact ⟨hb.1, ih hb.2⟩

/-- Dropping the trailing `0` separator of a non-empty pair buffer yields a
well-shaped letter pattern. -/
theorem pair_buffer_dropLast (b : List Nat) (hb : pair_buffer b = true)
    (hne : b ≠ []) : alternating_letter b.dropLast = true := by
  induction b using pair_buffer.induct with
  | case1 => exact absurd rfl hne
  | case2 x => simp [pair_buffer] at hb
  | case3 p z rest ih =>
    simp only [pair_buffer, Bool.and_eq_true, decide_eq_true_eq] at hb
    match rest, hb with
    | [], hb => simp [alternating_letter, hb.1]
    | r :: rs, hb =>
      rw [List.dropLast_cons₂, List.dropLast_cons₂]
      simp only [alternating_letter, Bool.and_eq_true, decide_eq_true_eq]
      exact ⟨⟨hb.1.1, hb.1.2⟩, ih hb.2 (by simp)⟩

/-- Soundness invariant of the segmentation loop: provided the in-progress
buffer is a pair buffer whose nonzero entries satisfy `Q`, the nonzero
entries of the remaining run satisfy `Q`, and the letters accumulated so far
are well shaped with nonzero entries satisfying `Q`, then every letter in
the final output is well shaped and its nonzero entries satisfy `Q`. -/
theorem separate_letters_inv (Q : Nat → Prop) (ls : List Nat) :
    ∀ (bt : Nat) (b : List Nat) (acc : List (List Nat)),
      (∀ x ∈ ls, x ≠ 0 → Q x) →
      pair_buffer b = true →
      (∀ x ∈ b, x ≠ 0 → Q x) →
      (∀ l ∈ acc, alternating_letter l = true ∧ ∀ x ∈ l, x ≠ 0 → Q x) →
      ∀ l ∈ separate_letters ls bt b acc,
        alternating_letter l = true ∧ ∀ x ∈ l, x ≠ 0 → Q x := by
  induction ls with
  | nil =>
    intro bt b acc _ _ _ hacc l hl
    exact hacc l (by simpa [separate_letters] using hl)
  | cons curr rest ih =>
    intro bt b acc hls hb hbQ hacc
    have hrest : ∀ x ∈ rest, x ≠ 0 → Q x := fun x hx => hls x (List.mem_cons_of_mem _ hx)
    have cont : ∀ (bt' : ℕ) (b' : List Nat), pair_buffer b' = true →
        (∀ x ∈ b', x ≠ 0 → Q x) →
        ∀ l ∈ (if bt' = 3 ∨ rest = [] then
            (if b' ≠ [] then separate_letters rest bt' [] (acc ++ [b'.dropLast])
             else separate_letters rest bt' b' acc)
          else separate_letters rest bt' b' acc),
          alternating_letter l = true ∧ ∀ x ∈ l, x ≠ 0 → Q x := by
      intro bt' b' hb' hb'Q
      by_cases hem : bt' = 3 ∨ rest = []
      · rw [if_pos hem]
        by_cases hbne : b' ≠ []
        · rw [if_pos hbne]
          refine ih bt' [] _ hrest rfl (by simp) ?_
          intro l hl
          rcases List.mem_append.mp hl with h | h
          · exact hacc l h
          · rw [List.mem_singleton] at h
            subst h
            exact ⟨pair_buffer_dropLast b' hb' hbne,
              fun x hx hx0 => hb'Q x ((List.dropLast_sublist b').subset hx) hx0⟩
        · rw [if_neg hbne]
          exact ih bt' b' acc hrest hb' hb'Q hacc
      · rw [if_neg hem]
        exact ih bt' b' acc hrest hb' hb'Q hacc
    by_cases h1 : curr ≠ 0 ∧ rest.headD 0 = 0
    · have hb2 : pair_buffer (b ++ [curr, 0]) = true :=
        pair_buffer_append b curr hb (Nat.pos_of_ne_zero h1.1)
      have hbQ2 : ∀ x ∈ b ++ [curr, 0], x ≠ 0 → Q x := by
        intro x hx hx0
        rcases List.mem_append.mp hx with h | h
        · exact hbQ x h hx0
        · simp only [List.mem_cons, List.not_mem_nil, or_false] at h
          rcases h with rfl | rfl
          · exact hls x (List.mem_cons_self x rest) hx0
          · exact absurd rfl hx0
      simp only [separate_letters]
      rw [if_pos h1, h1.2]
      exact cont 0 (b ++ [curr, 0]) hb2 hbQ2
    · by_cases hc0 : curr = 0
      · simp only [separate_letters]
        rw [if_neg h1, if_pos hc0]
        exact cont (bt + 1) b hb hbQ
      · simp only [separate_letters]
        rw [if_neg h1, if_neg hc0]
        exact cont bt b hb hbQ

/-- C7: every letter pattern emitted by the segmenter is a non-empty
sequence that begins and ends with a positive entry and strictly alternates
positive entries with single `0` separators (`alternating_letter`); and when
the run's positive entries are all `1` or `3`, the patterns' entries are all
`0`, `1` or `3`. -/
theorem separate_letters_shape (run : List Nat) :
    (∀ l ∈ separate_letters run 0 [] [], alternating_letter l = true) ∧
    ((∀ x ∈ run, x = 0 ∨ x = 1 ∨ x = 3) →
      ∀ l ∈ separate_letters run 0 [] [], ∀ x ∈ l, x = 0 ∨ x = 1 ∨ x = 3) := by
  constructor
  · intro l hl
    exact (separate_letters_inv (fun _ => True) run 0 [] []
      (by simp) rfl (by simp) (by simp) l hl).1
  · intro hrun l hl x hx
    by_cases hx0 : x = 0
    · exact Or.inl hx0
    · exact Or.inr ((separate_letters_inv (fun y => y = 1 ∨ y = 3) run 0 [] []
        (fun y hy hy0 => (hrun y hy).resolve_left hy0) rfl (by simp) (by simp)
        l hl).2 x hx hx0)

/-- Witness for C7: on the run `[3,0,0,0,1]` the emitted pattern `[3]` is
well shaped and its entry is among `0`, `1`, `3`. -/
theorem separate_letters_shape_witness :
    alternating_letter [3] = true ∧ ((3 : Nat) = 0 ∨ (3 : Nat) = 1 ∨ (3 : Nat) = 3) :=
  ⟨(separate_letters_shape [3, 0, 0, 0, 1]).1 [3] (by decide),
   (separate_letters_shape [3, 0, 0, 0, 1]).2 (by decide) [3] (by decide) 3 (by decide)⟩

/-! ## Theorems about the PID tick and loop -/

/-- C1 counterexample: on a tick where the left error is exactly zero
(threshold 90, left reading 90), the right channel is not left unaffected:
with right reading 80 and a prior right error sum of 5, the code forces the
right error to 0 and resets the right error sum to 0, instead of the
independent behaviour of keeping error `10` and accumulating the sum to
`15`. -/
theorem left_arrival_right_not_unaffected :
    ¬((followTick 90 ⟨5, 5, 0, 0⟩ 90 80).right_error = 10 ∧
      (followTick 90 ⟨5, 5, 0, 0⟩ 90 80).right_error_sum = 15) := by
  decide

/-- C1 (amended): on any tick where the left error is exactly zero, that
tick forces BOTH sides' errors to 0 and resets BOTH sides' error sums to 0:
the anti-windup reset is cross-coupled between the two sides, not
independent. -/
theorem left_arrival_resets_both (max_light left_light right_light : Int)
    (st : FollowState) (h : max_light - left_light = 0) :
    (followTick max_light st left_light right_light).left_error = 0 ∧
    (followTick max_light st left_light right_light).left_error_sum = 0 ∧
    (followTick max_light st left_light right_light).right_error = 0 ∧
    (followTick max_light st left_light right_light).right_error_sum = 0 := by
  simp [followTick, h]

/-- Witness for the amended C1 at threshold 90 and readings (90, 80) with a
prior right error sum of 5. -/
theorem left_arrival_resets_both_witness :
    (followTick 90 ⟨5, 5, 0, 0⟩ 90 80).left_error = 0 ∧
    (followTick 90 ⟨5, 5, 0, 0⟩ 90 80).left_error_sum = 0 ∧
    (followTick 90 ⟨5, 5, 0, 0⟩ 90 80).right_error = 0 ∧
    (followTick 90 ⟨5, 5, 0, 0⟩ 90 80).right_error_sum = 0 :=
  left_arrival_resets_both 90 90 80 ⟨5, 5, 0, 0⟩ (by decide)

/-- C2: on every tick, after the error and error-sum updates, if either
side's raw differential (current error minus that side's previous error) is
exactly zero then both sides' differential terms are forced to zero;
otherwise each side keeps its own difference unchanged. -/
theorem errorDiff_cross_override (max_light left_light right_light : Int)
    (st : FollowState) :
    (((followTick max_light st left_light right_light).left_error -
          st.left_prev_error = 0 ∨
      (followTick max_light st left_light right_light).right_error -
          st.right_prev_error = 0) →
        (followTick max_light st left_light right_light).left_error_diff = 0 ∧
        (followTick max_light st left_light right_light).right_error_diff = 0) ∧
    (¬((followTick max_light st left_light right_light).left_error -
          st.left_prev_error = 0 ∨
       (followTick max_light st left_light right_light).right_error -
          st.right_prev_error = 0) →
        (followTick max_light st left_light right_light).left_error_diff =
          (followTick max_light st left_light right_light).left_error -
            st.left_prev_error ∧
        (followTick max_light st left_light right_light).right_error_diff =
          (followTick max_light st left_light right_light).right_error -
            st.right_prev_error) := by
  simp only [followTick]
  split <;> split <;>
    first
      | exact ⟨fun _ => ⟨rfl, rfl⟩, fun hn => absurd (by assumption) hn⟩
      | exact ⟨fun h2 => absurd h2 (by assumption), fun _ => ⟨rfl, rfl⟩⟩

/-- Witness for C2: with threshold 90, previous errors (10, 20) and readings
(80, 75), the left raw differential is `10 - 10 = 0`, so both differential
terms are forced to zero. -/
theorem errorDiff_cross_override_witness :
    (followTick 90 ⟨0, 0, 10, 20⟩ 80 75).left_error_diff = 0 ∧
    (followTick 90 ⟨0, 0, 10, 20⟩ 80 75).right_error_diff = 0 :=
  (errorDiff_cross_override 90 80 75 ⟨0, 0, 10, 20⟩).1 (by decide)

/-- The power levels of a tick are `pyInt` of the PID formula applied to
that tick's (post-override) error, error sum and differential. -/
theorem followTick_power_formula (max_light left_light right_light : Int)
    (st : FollowState) :
    (followTick max_light st left_light right_light).left_power =
      pyInt (gain_p * (followTick max_light st left_light right_light).left_error +
        gain_i * (followTick max_light st left_light right_light).left_error_sum +
        gain_d * (followTick max_light st left_light right_light).left_error_diff) ∧
    (followTick max_light st left_light right_light).right_power =
      pyInt (gain_p * (followTick max_light st left_light right_light).right_error +
        gain_i * (followTick max_light st left_light right_light).right_error_sum +
        gain_d * (followTick max_light st left_light right_light).right_error_diff) :=
  ⟨rfl, rfl⟩

/-- C4: on every tick each side's power is the truncation toward zero
(floor on a nonnegative value, ceiling on a negative one — not plain
flooring) of `0.3*error + 0.0001*errorSum + 0.4*errorDiff` for that side,
and the emitted drive command is `start` of the negated left power and
`start` of the right power as computed. -/
theorem power_truncation_and_sign (max_light left_light right_light : Int)
    (st : FollowState) :
    tickCommands (followTick max_light st left_light right_light) =
      (MotorCmd.start
        (-(if 0 ≤ (0.3 : ℚ) * (followTick max_light st left_light right_light).left_error +
              (0.0001 : ℚ) * (followTick max_light st left_light right_light).left_error_sum +
              (0.4 : ℚ) * (followTick max_light st left_light right_light).left_error_diff
          then ⌊(0.3 : ℚ) * (followTick max_light st left_light right_light).left_error +
              (0.0001 : ℚ) * (followTick max_light st left_light right_light).left_error_sum +
              (0.4 : ℚ) * (followTick max_light st left_light right_light).left_error_diff⌋
          else ⌈(0.3 : ℚ) * (followTick max_light st left_light right_light).left_error +
              (0.0001 : ℚ) * (followTick max_light st left_light right_light).left_error_sum +
              (0.4 : ℚ) * (followTick max_light st left_light right_light).left_error_diff⌉)),
       MotorCmd.start
        (if 0 ≤ (0.3 : ℚ) * (followTick max_light st left_light right_light).right_error +
              (0.0001 : ℚ) * (followTick max_light st left_light right_light).right_error_sum +
              (0.4 : ℚ) * (followTick max_light st left_light right_light).right_error_diff
          then ⌊(0.3 : ℚ) * (followTick max_light st left_light right_light).right_error +
              (0.0001 : ℚ) * (followTick max_light st left_light right_light).right_error_sum +
              (0.4 : ℚ) * (followTick max_light st left_light right_light).right_error_diff⌋
          else ⌈(0.3 : ℚ) * (followTick max_light st left_light right_light).right_error +
              (0.0001 : ℚ) * (followTick max_light st left_light right_light).right_error_sum +
              (0.4 : ℚ) * (followTick max_light st left_light right_light).right_error_diff⌉)) := by
  unfold tickCommands
  rw [(followTick_power_formula max_light left_light right_light st).1,
    (followTick_power_formula max_light left_light right_light st).2,
    pyInt_eq_trunc, pyInt_eq_trunc]
  simp only [gain_p, gain_i, gain_d]

/-- Number of `stop` commands in a trace. -/
def countStop : List MotorCmd → Nat
  | [] => 0
  | MotorCmd.stop :: rest => countStop rest + 1
  | MotorCmd.start _ :: rest => countStop rest

/-- A cons keeps the last element of a non-empty tail. -/
theorem getLast?_cons_of_getLast? {α : Type} (a b : α) (l : List α)
    (h : l.getLast? = some b) : (a :: l).getLast? = some b := by
  cases l with
  | nil => simp at h
  | cons c l => rw [List.getLast?_cons_cons]; exact h

/-- C9: for every duration `d ≥ 0`, the `follow_light` loop processes
exactly the ticks up to the first timer reading exceeding `d` (one `start`
command per side per processed tick) and, after loop exit, issues exactly
one `stop` command to each of the two motor channels, as the final command
of each channel's trace, regardless of the intermediate power values. -/
theorem follow_light_stops_once (duration max_light : Int) (_hd : 0 ≤ duration)
    (ticks : List (Int × Int × Int)) (st : FollowState) :
    countStop (follow_light duration max_light ticks st).1 = 1 ∧
    countStop (follow_light duration max_light ticks st).2 = 1 ∧
    (follow_light duration max_light ticks st).1.getLast? = some MotorCmd.stop ∧
    (follow_light duration max_light ticks st).2.getLast? = some MotorCmd.stop ∧
    (follow_light duration max_light ticks st).1.length =
      (ticks.takeWhile fun x => decide (x.1 ≤ duration)).length + 1 ∧
    (follow_light duration max_light ticks st).2.length =
      (ticks.takeWhile fun x => decide (x.1 ≤ duration)).length + 1 := by
  induction ticks generalizing st with
  | nil => simp [follow_light, countStop]
  | cons tick rest ih =>
    obtain ⟨t, ll, rl⟩ := tick
    by_cases ht : t ≤ duration
    · have IH := ih (nextState (followTick max_light st ll rl))
      simp only [follow_light, if_pos ht, tickCommands]
      refine ⟨?_, ?_, ?_, ?_, ?_, ?_⟩
      · simpa [countStop] using IH.1
      · simpa [countStop] using IH.2.1
      · exact getLast?_cons_of_getLast? _ _ _ IH.2.2.1
      · exact getLast?_cons_of_getLast? _ _ _ IH.2.2.2.1
      · rw [List.takeWhile_cons_of_pos (by simpa using ht)]
        simpa using IH.2.2.2.2.1
      · rw [List.takeWhile_cons_of_pos (by simpa using ht)]
        simpa using IH.2.2.2.2.2
    · rw [List.takeWhile_cons_of_neg (by simpa using ht)]
      simp [follow_light, if_neg ht, countStop]

/-- Witness for C9: duration 3 with two ticks at times 0 and 4 — the loop
runs one tick, then stops each motor exactly once. -/
theorem follow_light_stops_once_witness :
    countStop (follow_light 3 90 [(0, 80, 70), (4, 0, 0)] ⟨0, 0, 0, 0⟩).1 = 1 ∧
    countStop (follow_light 3 90 [(0, 80, 70), (4, 0, 0)] ⟨0, 0, 0, 0⟩).2 = 1 ∧
    (follow_light 3 90 [(0, 80, 70), (4, 0, 0)] ⟨0, 0, 0, 0⟩).1.getLast? =
      some MotorCmd.stop ∧
    (follow_light 3 90 [(0, 80, 70), (4, 0, 0)] ⟨0, 0, 0, 0⟩).2.getLast? =
      some MotorCmd.stop ∧
    (follow_light 3 90 [(0, 80, 70), (4, 0, 0)] ⟨0, 0, 0, 0⟩).1.length =
      (([(0, 80, 70), (4, 0, 0)] : List (Int × Int × Int)).takeWhile
        fun x => decide (x.1 ≤ 3)).length + 1 ∧
    (follow_light 3 90 [(0, 80, 70), (4, 0, 0)] ⟨0, 0, 0, 0⟩).2.length =
      (([(0, 80, 70), (4, 0, 0)] : List (Int × Int × Int)).takeWhile
        fun x => decide (x.1 ≤ 3)).length + 1 :=
  follow_light_stops_once 3 90 (by decide) [(0, 80, 70), (4, 0, 0)] ⟨0, 0, 0, 0⟩
